import Mathlib

set_option maxRecDepth 100000

/-!
Shallow embedding of the `detector` and `dialect` packages of the go-csv
repository.  Byte streams are modelled as `List Nat` (each element a byte
value 0–255); the Go `io.Reader` chunking performed by
`bufio.NewReader(...).Read(buf)` with a 1024-byte buffer is modelled by
splitting the content into successive 1024-byte chunks, which is exactly the
sequence of `(n, nil)` reads a standard in-memory reader produces.  The
floating-point mean/deviation arithmetic of `analyze` is embedded over `ℚ`;
the one place where the float semantics is visible — a zero effective line
count makes the Go code compute `NaN` (0.0/0), which fails the exact-zero
comparison — is made explicit by a `size != 0` guard in `qualifies`.
-/

namespace GoCsv

/-- The constant `sampleLines = 15` from `detect.go`. -/
def sampleLines : Nat := 15

/-- Embedding of `nonDelimiterRegex.MatchString(string(current))` for a single
byte: the regexp `[[:alnum:]\n\r]` with POSIX (ASCII-only) classes matches a
byte iff it is an ASCII digit, an ASCII letter, a linefeed or a
carriage-return.  A byte ≥ 0x80 turns into a non-ASCII rune and never
matches. -/
def isNonDelim (c : Nat) : Bool :=
  (48 ≤ c && c ≤ 57) || (65 ≤ c && c ≤ 90) || (97 ≤ c && c ≤ 122) || c == 10 || c == 13

/-- Embedding of `validDelimiter`: the fixed allow-list `,`, `|`, tab, `;`. -/
def validDelimiter (c : Nat) : Bool :=
  c == 44 || c == 124 || c == 9 || c == 59

/-- Go's `string(delimiter)` for the single (ASCII) candidate byte. -/
def byteStr (c : Nat) : String :=
  String.mk [Char.ofNat c]

/-- The per-character line-count map `map[int]int`, embedded as an association
list from line index to occurrence count (insertion-ordered). -/
abbrev LineCounts := List (Nat × Nat)

/-- The `frequencyTable` type `map[byte]map[int]int`, embedded as an
association list from character to its per-line counts (insertion-ordered;
Go map iteration order is handled separately, see `analyzeWithOrder`). -/
abbrev FreqTable := List (Nat × LineCounts)

/-- Inner part of `frequencyTable.increment`: bump the count stored for
`line`, inserting `line ↦ 1` when absent. -/
def bumpLine : LineCounts → Nat → LineCounts
  | [], line => [(line, 1)]
  | (l, c) :: rest, line =>
      if l == line then (l, c + 1) :: rest else (l, c) :: bumpLine rest line

/-- Embedding of `frequencyTable.increment`: bump the count for `char` at
`line`, inserting fresh inner/outer entries when absent. -/
def increment : FreqTable → Nat → Nat → FreqTable
  | [], ch, line => [(ch, bumpLine [] line)]
  | (c, fl) :: rest, ch, line =>
      if c == ch then (c, bumpLine fl line) :: rest
      else (c, fl) :: increment rest ch line

/-- The keys of a frequency table, in the canonical (insertion) order. -/
def keys (ft : FreqTable) : List Nat := ft.map Prod.fst

/-- The per-line counts recorded for character `c` (empty when absent). -/
def lineCounts (ft : FreqTable) (c : Nat) : LineCounts :=
  (ft.lookup c).getD []

/-- `frequencyOfLine[i]` with a missing entry counting as zero. -/
def countAt (fl : LineCounts) (i : Nat) : Nat :=
  (fl.lookup i).getD 0

/-- The mutable state threaded through `sample`'s scanning loop. -/
structure SampleState where
  ft : FreqTable
  lines : Nat
  enclosed : Bool
deriving DecidableEq, Repr

/-- Outcome of processing one position of the buffer inside `sample`'s inner
loop: either continue (advancing by two positions when an escaped enclosure
pair was skipped, marked by `two = true`, else by one), or break out of the
current chunk after reaching the target line count. -/
inductive StepOut where
  | cont (st : SampleState) (two : Bool)
  | brk (st : SampleState)
deriving DecidableEq, Repr

/-- One iteration of `sample`'s inner byte loop, for current byte `cur` with
one-byte lookbehind `prev` and lookahead `next` (zero sentinels at chunk
edges are supplied by the caller), against enclosure byte `enc` and target
line count `target`. -/
def stepByte (enc cur prev next target : Nat) (st : SampleState) : StepOut :=
  if cur == enc then
    if !st.enclosed || next != enc then
      .cont { st with enclosed := !st.enclosed } false
    else
      .cont st true
  else if ((cur == 10 && prev != 13) || cur == 13) && !st.enclosed then
    let lines := st.lines + 1
    if target ≤ lines then .brk { st with lines := lines }
    else .cont { st with lines := lines } false
  else if !st.enclosed then
    if isNonDelim cur then .cont st false
    else .cont { st with ft := increment st.ft cur st.lines } false
  else
    .cont st false

/-- `sample`'s inner loop over one buffered chunk, walking the suffix of the
chunk that remains: `prev` is the byte before the current position (the zero
sentinel at the chunk start), the lookahead is the head of the remaining
suffix (the zero sentinel at the chunk end), exactly as the indexed loop of
the source computes them.  An escaped-enclosure skip consumes two bytes. -/
def scanChunk (enc target : Nat) : Nat → List Nat → SampleState → SampleState
  | _, [], st => st
  | prev, cur :: rest, st =>
    match stepByte enc cur prev (rest.headD 0) target st with
    | .brk st' => st'
    | .cont st' true =>
      match rest with
      | [] => st'
      | nxt :: rest' => scanChunk enc target nxt rest' st'
    | .cont st' false => scanChunk enc target cur rest st'

/-- Fuel-driven splitting of the content into 1024-byte chunks (the fuel, at
least the content length, dominates the number of chunks). -/
def chunksOfAux : Nat → List Nat → List (List Nat)
  | 0, _ => []
  | _, [] => []
  | fuel + 1, l => l.take 1024 :: chunksOfAux fuel (l.drop 1024)

/-- The successive chunks a `bufio.Reader` with a 1024-byte destination
buffer delivers for the given content: 1024-byte slices, the last one
partial. -/
def chunksOf (l : List Nat) : List (List Nat) :=
  chunksOfAux l.length l

/-- Embedding of `detector.sample`: scan the content chunk by chunk, tracking
the enclosure flag, the completed-line counter (starting at 1) and the
frequency table; return the table and the actual sample-line count. -/
def sample (content : List Nat) (enc : Nat) : FreqTable × Nat :=
  let final := (chunksOf content).foldl
    (fun st chunk => scanChunk enc sampleLines 0 chunk st)
    ⟨[], 1, false⟩
  (final.ft, final.lines)

/-- The `mean` closure of `analyze`: total of the per-line counts over lines
`1..size` (missing lines count as zero). -/
def totalCount (fl : LineCounts) (size : Nat) : Nat :=
  ∑ i ∈ Finset.Icc 1 size, countAt fl i

/-- The mean occurrence count over the effective line count, over `ℚ`. -/
def meanQ (fl : LineCounts) (size : Nat) : ℚ :=
  (totalCount fl size : ℚ) / (size : ℚ)

/-- The `deviation` closure of `analyze`: average over lines `1..size` of
`sqrt((mean - count)²)`, i.e. of `|count - mean|`, over `ℚ`. -/
def deviationQ (fl : LineCounts) (size : Nat) : ℚ :=
  (∑ i ∈ Finset.Icc 1 size, |(countAt fl i : ℚ) - meanQ fl size|) / (size : ℚ)

/-- The candidate test of `analyze`: the deviation compares exactly equal to
zero.  When `size = 0` the Go code computes `0.0/0 = NaN`, which fails the
`0.0 ==` comparison; the `size != 0` conjunct makes that explicit in the
rational-arithmetic embedding. -/
def qualifies (fl : LineCounts) (size : Nat) : Bool :=
  size != 0 && decide (deviationQ fl size = 0)

/-- Embedding of `detector.analyze` with the table iterated in the canonical
(insertion) order: every recorded character whose deviation is exactly
zero. -/
def analyze (ft : FreqTable) (size : Nat) : List Nat :=
  (keys ft).filter (fun c => qualifies (lineCounts ft c) size)

/-- `analyze` with an explicit key-enumeration order, modelling Go's
unspecified map iteration order: `order` is the sequence in which `range ft`
visits the table's keys. -/
def analyzeWithOrder (ft : FreqTable) (order : List Nat) (size : Nat) : List Nat :=
  order.filter (fun c => qualifies (lineCounts ft c) size)

/-- Embedding of `DetectDelimiter`: sample, analyze with effective line count
`totalLines - 1`, keep the allow-listed candidates, convert to strings. -/
def detectDelimiter (content : List Nat) (enc : Nat) : List String :=
  ((analyze (sample content enc).1 ((sample content enc).2 - 1)).filter
    validDelimiter).map byteStr

/-- `DetectDelimiter` with an explicit map-iteration order for the analyzer
stage (the sampling stage is deterministic). -/
def detectDelimiterWithOrder (content : List Nat) (enc : Nat) (order : List Nat) :
    List String :=
  ((analyzeWithOrder (sample content enc).1 order ((sample content enc).2 - 1)).filter
    validDelimiter).map byteStr

/-- Does the buffer contain the two-byte sequence CR LF?  Embedding of
`bytes.Index(buf, []byte{13,10}) != -1` (the zero padding past the read
length cannot contribute an occurrence, since it contains no CR). -/
def hasCRLF : List Nat → Bool
  | [] => false
  | [_] => false
  | a :: b :: rest => (a == 13 && b == 10) || hasCRLF (b :: rest)

/-- Embedding of `DetectRowTerminator`: one read of at most 128 KiB; on a
read error or end of input (the empty stream) both error branches return the
empty string; otherwise CR LF, then lone CR, then the LF default. -/
def detectRowTerminator (content : List Nat) : String :=
  if content = [] then ""
  else
    let buf := content.take 131072
    if hasCRLF buf then "\r\n"
    else if buf.contains 13 then "\r"
    else "\n"

/-- The fields of `csv.Dialect` that the dialect builder sets (runes as code
points; the repository's root csv package itself is an external
collaborator). -/
structure Dialect where
  delimiter : Nat
  quoteChar : Nat
  escapeChar : Nat
deriving DecidableEq, Repr

/-- Embedding of `DialectBuilder.Dialect()`.  The three option strings are
lists of runes (`utf8.RuneCountInString` is `length`); `parsed` is whether
the flag set was parsed.  The ignored `ReadRune` error on an empty string
leaves the rune zero, modelled by `headD 0`. -/
def dialectBuild (parsed : Bool) (quoteS escapeS delimS : List Nat) :
    Except String Dialect :=
  if !parsed then
    .error "FlagSet has not been parsed before calling this function."
  else if 1 < quoteS.length then
    .error "-fields-optionally-enclosed-by can't be more than one character."
  else if 1 < escapeS.length then
    .error "-fields-escaped-by can't be more than one character."
  else if quoteS.length < 1 then
    .error "-fields-optionally-enclosed-by can't be an empty string."
  else if escapeS.length < 1 then
    .error "-fields-escaped-by can't be an empty string."
  else
    .ok ⟨delimS.headD 0, quoteS.headD 0, escapeS.headD 0⟩

/-! Concrete byte streams used as test vectors. -/

/-- The bytes of `"a,b,c,d\ne,f,g,h\n"`: two sampled lines with exactly 3
unenclosed commas each (plus a trailing empty partial line). -/
def commaStream : List Nat := [97,44,98,44,99,44,100,10,101,44,102,44,103,44,104,10]

/-- The bytes of `",;x\n,;y\n"`: both `,` and `;` occur exactly once on each
of the two sampled lines, so both qualify. -/
def tieStream : List Nat := [44,59,120,10,44,59,121,10]

/-- A 1025-byte stream: 14 linefeeds, then 1010 letters `a` filling the first
1024-byte chunk, then one more linefeed in the second chunk. -/
def overrunStream : List Nat := List.replicate 14 10 ++ List.replicate 1010 97 ++ [10]

/-- The bytes of 5 lines each terminated by CR LF. -/
def crlfStream : List Nat := [97,13,10,98,13,10,99,13,10,100,13,10,101,13,10]

/-- The bytes of 5 lines each terminated by LF only. -/
def lfStream : List Nat := [97,10,98,10,99,10,100,10,101,10]

/-- The bytes of `"a,b,c"`: a single line with no trailing line break. -/
def singleLineStream : List Nat := [97,44,98,44,99]

/-! Analyzer arithmetic: the exact-zero deviation test is equivalent to the
per-line counts being identical over the effective line count. -/

theorem deviationQ_eq_zero_iff (fl : LineCounts) (size : Nat) (hs : size ≠ 0) :
    deviationQ fl size = 0 ↔
      ∀ i, 1 ≤ i → i ≤ size → countAt fl i = countAt fl 1 := by
  have hsQ : (size : ℚ) ≠ 0 := Nat.cast_ne_zero.2 hs
  unfold deviationQ
  rw [div_eq_zero_iff]
  constructor
  · rintro (hsum | hbad)
    · intro i h1 h2
      have hall := (Finset.sum_eq_zero_iff_of_nonneg
        (fun j _ => abs_nonneg ((countAt fl j : ℚ) - meanQ fl size))).1 hsum
      have e1 : (countAt fl i : ℚ) = meanQ fl size := by
        have := hall i (Finset.mem_Icc.2 ⟨h1, h2⟩)
        rwa [abs_eq_zero, sub_eq_zero] at this
      have e2 : (countAt fl 1 : ℚ) = meanQ fl size := by
        have := hall 1 (Finset.mem_Icc.2 ⟨le_refl 1, Nat.one_le_iff_ne_zero.2 hs⟩)
        rwa [abs_eq_zero, sub_eq_zero] at this
      exact_mod_cast e1.trans e2.symm
    · exact absurd hbad hsQ
  · intro h
    left
    have hmean : meanQ fl size = (countAt fl 1 : ℚ) := by
      unfold meanQ totalCount
      have hconst : ∀ i ∈ Finset.Icc 1 size, countAt fl i = countAt fl 1 := by
        intro i hi
        obtain ⟨hi1, hi2⟩ := Finset.mem_Icc.1 hi
        exact h i hi1 hi2
      rw [Finset.sum_congr rfl hconst, Finset.sum_const, Nat.card_Icc,
        smul_eq_mul, Nat.add_sub_cancel]
      push_cast
      exact mul_div_cancel_left₀ _ hsQ
    refine Finset.sum_eq_zero ?_
    intro i hi
    obtain ⟨hi1, hi2⟩ := Finset.mem_Icc.1 hi
    rw [h i hi1 hi2, hmean]
    simp

theorem qualifies_iff (fl : LineCounts) (size : Nat) (hs : size ≠ 0) :
    qualifies fl size = true ↔
      ∀ i, 1 ≤ i → i ≤ size → countAt fl i = countAt fl 1 := by
  unfold qualifies
  rw [Bool.and_eq_true, decide_eq_true_eq]
  constructor
  · rintro ⟨-, hdev⟩
    exact (deviationQ_eq_zero_iff fl size hs).1 hdev
  · intro h
    exact ⟨by simpa using hs, (deviationQ_eq_zero_iff fl size hs).2 h⟩

/-- C1: for a positive effective line count, a character is a candidate of
the analyzer exactly when it was recorded and its per-line occurrence count
(missing lines counting as zero) is identical across all lines of the
effective line count; concretely, on the stream `"a,b,c,d\ne,f,g,h\n"` where
every sampled line has exactly 3 unenclosed commas, `DetectDelimiter`
includes `","`. -/
theorem c1_uniform_candidates :
    (∀ (ft : FreqTable) (size : Nat) (c : Nat), 1 ≤ size →
      (c ∈ analyze ft size ↔ c ∈ keys ft ∧
        ∀ i, 1 ≤ i → i ≤ size →
          countAt (lineCounts ft c) i = countAt (lineCounts ft c) 1)) ∧
    ("," : String) ∈ detectDelimiter commaStream 34 := by
  constructor
  · intro ft size c hsize
    rw [analyze, List.mem_filter]
    have hs : size ≠ 0 := by omega
    rw [qualifies_iff (lineCounts ft c) size hs]
  · with_unfolding_all decide

/-- Witness instantiating `c1_uniform_candidates` at the frequency table the
comma stream produces: the comma, recorded 3 times on each of the 2 effective
lines, is a candidate. -/
theorem c1_witness :
    (44 ∈ analyze [(44, [(1, 3), (2, 3)])] 2 ↔ 44 ∈ keys [(44, [(1, 3), (2, 3)])] ∧
      ∀ i, 1 ≤ i → i ≤ 2 →
        countAt (lineCounts [(44, [(1, 3), (2, 3)])] 44) i =
          countAt (lineCounts [(44, [(1, 3), (2, 3)])] 44) 1) :=
  c1_uniform_candidates.1 [(44, [(1, 3), (2, 3)])] 2 44 (by decide)

/-- C2 counterexample: on the empty stream the initial read reports end of
input and `DetectRowTerminator` returns the empty string — not the linefeed
default, and not one of the three terminator strings. -/
theorem c2_counterexample :
    detectRowTerminator [] = "" ∧ detectRowTerminator [] ≠ "\n" ∧
      detectRowTerminator [] ∉ (["\r\n", "\r", "\n"] : List String) := by
  refine ⟨rfl, by decide, by decide⟩

/-- C2 amended: when the initial read succeeds (the stream is nonempty)
`DetectRowTerminator` returns one of the three terminator strings; when the
read fails or the stream is at end of input (the empty stream) it returns
the empty string. -/
theorem c2_total :
    (∀ content : List Nat, content ≠ [] →
      detectRowTerminator content ∈ (["\r\n", "\r", "\n"] : List String)) ∧
    detectRowTerminator [] = "" := by
  constructor
  · intro content h
    unfold detectRowTerminator
    rw [if_neg h]
    by_cases h1 : hasCRLF (content.take 131072) = true
    · simp [h1]
    · by_cases h2 : (content.take 131072).contains 13 = true
      all_goals
        simp only [h1, h2, List.mem_cons, List.not_mem_nil, or_false, if_false]
        by_cases h3 : (13 : Nat) ∈ content.take 131072 <;> simp [h3]
  · rfl

/-- Witness instantiating `c2_total` on a nonempty one-byte stream. -/
theorem c2_witness :
    detectRowTerminator [97] ∈ (["\r\n", "\r", "\n"] : List String) :=
  c2_total.1 [97] (by decide)

/-- C3: every string returned by `DetectDelimiter` is one of the four
allow-listed single-character delimiter strings. -/
theorem c3_allowlist :
    ∀ (content : List Nat) (enc : Nat) (s : String),
      s ∈ detectDelimiter content enc →
        s ∈ ([",", "|", "\t", ";"] : List String) := by
  intro content enc s hs
  unfold detectDelimiter at hs
  obtain ⟨c, hc, rfl⟩ := List.mem_map.1 hs
  have hv := (List.mem_filter.1 hc).2
  unfold validDelimiter at hv
  simp only [Bool.or_eq_true, beq_iff_eq] at hv
  rcases hv with ((rfl | rfl) | rfl) | rfl <;> decide

/-- Witness instantiating `c3_allowlist` at the comma stream, on which
`DetectDelimiter` returns the comma. -/
theorem c3_witness : ("," : String) ∈ ([",", "|", "\t", ";"] : List String) :=
  c3_allowlist commaStream 34 "," (by with_unfolding_all decide)

/-- C4: on `overrunStream` the sampler's `break` only leaves the inner
per-chunk loop, so the scan resumes with the next 1024-byte chunk and the
returned actual-sample-line count reaches 16, exceeding the target of 15 —
the code does not stop sampling at the target line count. -/
theorem c4_overrun :
    (sample overrunStream 34).2 = 16 ∧ sampleLines < (sample overrunStream 34).2 := by
  refine ⟨by decide, by decide⟩

/-- C5: while the enclosure state is active, processing any byte — an
enclosure character, a line break, or any other byte — leaves the frequency
table and the completed-line counter unchanged (and never breaks out of the
chunk). -/
theorem c5_enclosed_untouched :
    ∀ (enc cur prev next target : Nat) (st : SampleState), st.enclosed = true →
      ∃ st' two, stepByte enc cur prev next target st = .cont st' two ∧
        st'.ft = st.ft ∧ st'.lines = st.lines := by
  intro enc cur prev next target st h
  by_cases hc : (cur == enc) = true
  · by_cases hn : (next != enc) = true
    · exact ⟨{ st with enclosed := !st.enclosed }, false, by simp [stepByte, hc, hn], rfl, rfl⟩
    · exact ⟨st, true, by simp [stepByte, hc, hn, h], rfl, rfl⟩
  · exact ⟨st, false, by simp [stepByte, hc, h], rfl, rfl⟩

/-- Witness instantiating `c5_enclosed_untouched`: a comma read while
enclosed is not recorded and does not advance the line counter. -/
theorem c5_witness :
    ∃ st' two, stepByte 34 44 0 0 15 ⟨[], 1, true⟩ = .cont st' two ∧
      st'.ft = (⟨[], 1, true⟩ : SampleState).ft ∧
      st'.lines = (⟨[], 1, true⟩ : SampleState).lines :=
  c5_enclosed_untouched 34 44 0 0 15 ⟨[], 1, true⟩ rfl

/-- C6 counterexample: with the enclosure state inactive, a current byte
equal to the enclosure character followed by another enclosure character is
NOT treated as an escaped pair — the sampler toggles the state on and
advances by one byte instead of skipping the second byte with the state
unchanged. -/
theorem c6_counterexample :
    stepByte 34 34 0 34 15 ⟨[], 1, false⟩ = .cont ⟨[], 1, true⟩ false ∧
      stepByte 34 34 0 34 15 ⟨[], 1, false⟩ ≠ .cont ⟨[], 1, false⟩ true := by
  exact ⟨rfl, by decide⟩

/-- C6 amended: while the enclosure state is active, a current byte equal to
the enclosure character whose next byte is also the enclosure character is
treated as a literal escaped enclosure — the sampler skips the second byte
(advancing two positions) and leaves the state, the frequency table and the
line counter entirely unchanged.  While the state is inactive, the first of
the two enclosure characters instead toggles the state on. -/
theorem c6_escaped_pair :
    (∀ (enc prev target : Nat) (st : SampleState), st.enclosed = true →
      stepByte enc enc prev enc target st = .cont st true) ∧
    (∀ (enc prev target : Nat) (st : SampleState), st.enclosed = false →
      stepByte enc enc prev enc target st = .cont { st with enclosed := true } false) := by
  constructor
  · intro enc prev target st h
    simp [stepByte, h]
  · intro enc prev target st h
    simp [stepByte, h]

/-- Witness instantiating `c6_escaped_pair` on a doubled quote inside and
outside an enclosure. -/
theorem c6_witness :
    stepByte 34 34 0 34 15 ⟨[], 1, true⟩ = .cont ⟨[], 1, true⟩ true ∧
      stepByte 34 34 0 34 15 ⟨[], 1, false⟩ = .cont ⟨[], 1, true⟩ false :=
  ⟨c6_escaped_pair.1 34 0 15 ⟨[], 1, true⟩ rfl,
   c6_escaped_pair.2 34 0 15 ⟨[], 1, false⟩ rfl⟩

/-- C7 counterexample: the tie stream records both `,` and `;` as uniformly
occurring, and two key-enumeration orders that are both permutations of the
table's key set — both possible iteration orders of the Go map — give the
two candidates in different orders, so the returned sequence is not
determined by the byte content alone. -/
theorem c7_counterexample :
    [44, 59].Perm (keys (sample tieStream 34).1) ∧
    [59, 44].Perm (keys (sample tieStream 34).1) ∧
    detectDelimiterWithOrder tieStream 34 [44, 59] ≠
      detectDelimiterWithOrder tieStream 34 [59, 44] := by
  with_unfolding_all decide

/-- C7 amended: `DetectDelimiter` on the same byte content returns the same
candidate multiset — any two key-enumeration orders that are permutations of
one another yield candidate sequences that are permutations of one
another (the sampling stage itself is a deterministic function of the byte
content). -/
theorem c7_same_elements :
    ∀ (content : List Nat) (enc : Nat) (order1 order2 : List Nat),
      order1.Perm order2 →
        (detectDelimiterWithOrder content enc order1).Perm
          (detectDelimiterWithOrder content enc order2) := by
  intro content enc order1 order2 h
  unfold detectDelimiterWithOrder analyzeWithOrder
  exact ((h.filter _).filter _).map _

/-- Witness instantiating `c7_same_elements` on the tie stream with the two
opposite iteration orders. -/
theorem c7_witness :
    (detectDelimiterWithOrder tieStream 34 [44, 59]).Perm
      (detectDelimiterWithOrder tieStream 34 [59, 44]) :=
  c7_same_elements tieStream 34 [44, 59] [59, 44] (by decide)

/-- Specification of the CR LF search: `hasCRLF` holds exactly when the
buffer splits as `s ++ [13, 10] ++ t`. -/
theorem hasCRLF_iff : ∀ l : List Nat, hasCRLF l = true ↔ ∃ s t, l = s ++ [13, 10] ++ t
  | [] => by
      constructor
      · intro h
        simp [hasCRLF] at h
      · rintro ⟨s, t, h⟩
        cases s <;> simp_all
  | [a] => by
      constructor
      · intro h
        simp [hasCRLF] at h
      · rintro ⟨s, t, h⟩
        cases s with
        | nil => simp_all
        | cons x s' => cases s' <;> simp_all
  | a :: b :: rest => by
      rw [show hasCRLF (a :: b :: rest) = ((a == 13 && b == 10) || hasCRLF (b :: rest))
        from rfl]
      rw [Bool.or_eq_true, Bool.and_eq_true, beq_iff_eq, beq_iff_eq,
        hasCRLF_iff (b :: rest)]
      constructor
      · rintro (⟨rfl, rfl⟩ | ⟨s, t, h⟩)
        · exact ⟨[], rest, rfl⟩
        · exact ⟨a :: s, t, by simp [h]⟩
      · rintro ⟨s, t, h⟩
        cases s with
        | nil =>
            simp only [List.nil_append, List.cons_append, List.cons.injEq] at h
            obtain ⟨rfl, rfl, rfl⟩ := h
            exact Or.inl ⟨rfl, rfl⟩
        | cons x s' =>
            simp only [List.cons_append, List.cons.injEq] at h
            exact Or.inr ⟨s', t, h.2⟩

/-- C8: when the single 128 KiB read succeeds (the stream is nonempty), the
detector returns `"\r\n"` if the chunk contains the CR LF pair anywhere,
else `"\r"` if it contains a CR, else `"\n"`; concretely, 5 lines ending in
CR LF are detected as `"\r\n"` and 5 lines ending in LF as `"\n"`. -/
theorem c8_terminator_priority :
    (∀ content : List Nat, content ≠ [] →
      (∃ s t, content.take 131072 = s ++ [13, 10] ++ t) →
        detectRowTerminator content = "\r\n") ∧
    (∀ content : List Nat, content ≠ [] →
      ¬(∃ s t, content.take 131072 = s ++ [13, 10] ++ t) →
        (13 : Nat) ∈ content.take 131072 →
          detectRowTerminator content = "\r") ∧
    (∀ content : List Nat, content ≠ [] →
      (13 : Nat) ∉ content.take 131072 →
        detectRowTerminator content = "\n") ∧
    detectRowTerminator crlfStream = "\r\n" ∧
    detectRowTerminator lfStream = "\n" := by
  refine ⟨?_, ?_, ?_, by decide, by decide⟩
  · intro content h hex
    unfold detectRowTerminator
    rw [if_neg h]
    have h1 : hasCRLF (content.take 131072) = true := (hasCRLF_iff _).2 hex
    simp [h1]
  · intro content h hex hcr
    unfold detectRowTerminator
    rw [if_neg h]
    have h1 : hasCRLF (content.take 131072) ≠ true := fun hh => hex ((hasCRLF_iff _).1 hh)
    have h2 : (content.take 131072).contains 13 = true := List.elem_iff.2 hcr
    simp only [h1, h2, if_false, if_true, Bool.false_eq_true]
  · intro content h hcr
    unfold detectRowTerminator
    rw [if_neg h]
    have h1 : hasCRLF (content.take 131072) ≠ true := by
      intro hh
      obtain ⟨s, t, he⟩ := (hasCRLF_iff _).1 hh
      apply hcr
      rw [he]
      simp
    have h2 : (content.take 131072).contains 13 ≠ true := fun hh => hcr (List.elem_iff.1 hh)
    simp only [h1, h2, if_false, Bool.false_eq_true]

/-- Witness instantiating `c8_terminator_priority`: a stream beginning with
the CR LF pair is detected as `"\r\n"`. -/
theorem c8_witness : detectRowTerminator [13, 10] = "\r\n" :=
  c8_terminator_priority.1 [13, 10] (by decide) ⟨[], [], rfl⟩

/-- C9 counterexample: the dialect builder accepts an empty delimiter string
(and likewise a multi-character one) without any error — only the enclosure
and escape strings are validated.  With a valid quote and escape, an empty
`-fields-terminated-by` yields a dialect whose delimiter rune is 0, and a
two-character one silently takes its first rune. -/
theorem c9_counterexample :
    dialectBuild true [34] [92] [] = .ok ⟨0, 34, 92⟩ ∧
      dialectBuild true [34] [92] [44, 44] = .ok ⟨44, 34, 92⟩ :=
  ⟨rfl, rfl⟩

/-- C9 amended: after the flag set was parsed, the builder validates the
enclosure and escape option strings — more than one character, then an empty
string, each reported as a synchronous error naming the offending option and
the violated constraint — while the delimiter string is not validated at
all: any delimiter string yields a dialect carrying its first rune (or the
zero rune when empty). -/
theorem c9_validation :
    ∀ q e d : List Nat,
      (1 < q.length → dialectBuild true q e d =
        .error "-fields-optionally-enclosed-by can't be more than one character.") ∧
      (q.length ≤ 1 → 1 < e.length → dialectBuild true q e d =
        .error "-fields-escaped-by can't be more than one character.") ∧
      (q.length = 0 → e.length ≤ 1 → dialectBuild true q e d =
        .error "-fields-optionally-enclosed-by can't be an empty string.") ∧
      (q.length = 1 → e.length = 0 → dialectBuild true q e d =
        .error "-fields-escaped-by can't be an empty string.") ∧
      (q.length = 1 → e.length = 1 → dialectBuild true q e d =
        .ok ⟨d.headD 0, q.headD 0, e.headD 0⟩) := by
  intro q e d
  refine ⟨fun h1 => ?_, fun h1 h2 => ?_, fun h1 h2 => ?_, fun h1 h2 => ?_,
    fun h1 h2 => ?_⟩ <;>
    · unfold dialectBuild
      split_ifs <;> first | rfl | omega | simp_all

/-- Witness instantiating `c9_validation`: valid one-character quote and
escape strings produce a dialect from any delimiter string. -/
theorem c9_witness : dialectBuild true [34] [92] [44] = .ok ⟨44, 34, 92⟩ :=
  (c9_validation [34] [92] [44]).2.2.2.2 rfl rfl

/-- Helper for C10: with a zero effective line count the deviation statistic
is the Go `NaN` (0.0/0), which fails the exact-zero test, so the analyzer
yields no candidate whatever the table holds. -/
theorem analyze_zero (ft : FreqTable) : analyze ft 0 = [] := by
  unfold analyze
  exact List.filter_eq_nil_iff.2 fun c _ => by simp [qualifies]

/-- C10: whenever the sampler observed no unenclosed line break — it reports
an actual line count of 1, so the analyzer runs with an effective line count
of 0 — `DetectDelimiter` returns the empty candidate sequence; concretely so
for the empty stream and for the single unterminated line `"a,b,c"`. -/
theorem c10_no_break_no_candidates :
    (∀ (content : List Nat) (enc : Nat), (sample content enc).2 = 1 →
      detectDelimiter content enc = []) ∧
    detectDelimiter [] 34 = [] ∧
    (sample singleLineStream 34).2 = 1 ∧
    detectDelimiter singleLineStream 34 = [] := by
  refine ⟨?_, by decide, by decide, by decide⟩
  intro content enc h
  unfold detectDelimiter
  rw [h]
  simp [analyze_zero]

/-- Witness instantiating `c10_no_break_no_candidates` on the unterminated
single-line stream. -/
theorem c10_witness : detectDelimiter singleLineStream 34 = [] :=
  c10_no_break_no_candidates.1 singleLineStream 34 (by decide)

end GoCsv
